import Mathlib

/-!
# EduDAQ firmware — shallow embedding and verification

A shallow embedding, in Lean 4, of the acquisition / trigger / circular-buffer
core of the EduDAQ Arduino firmware (`src/EduDAQ.ino`), together with theorems
settling the behavioural claims about it.

Modelling conventions:
* C `int` / `long` values become `Int`; C `byte` array cells become `Nat`
  values that the write operations keep below 256 (the byte store truncation
  is written as explicit masking / `% 256` where it matters).
* The two byte arrays `sampBuf` / `sampBufL` become total functions
  `Nat → Nat`; all C indices at the modelled call sites are non-negative.
* C `%` on the non-negative operands appearing in this program agrees with
  Lean's `Int.emod`, which is what `%` denotes below.
* `unsigned long` comparison `skipCnt < cfg.sampPeriod - cfg.nChannels`
  converts the right-hand side to a 32-bit unsigned value; this is modelled
  with an explicit `% 4294967296` (= `2^32`).
* 32-bit signed (`long`) wrap-around is modelled by `wrap32`.
* Hardware register traffic (ADMUX, PORTB, ADCSRA …) and `Serial` output are
  not state of the model; the ADC reading delivered by a conversion is a
  parameter of the interrupt-step function.
-/

/-- Arduino's `constrain(amt, low, high)` macro:
`(amt)<(low)?(low):((amt)>(high)?(high):(amt))`. -/
def constrain (x a b : Int) : Int :=
  if x < a then a else if x > b then b else x

/-- Helper for `normAdd`: the loop body, with explicit fuel so that the
recursion is structural (and hence kernel-computable). -/
def normAddAux (b : Int) : Nat → Int → Int
  | 0, s => s
  | fuel + 1, s => if s < 0 then normAddAux b fuel (s + b) else s

/-- The `while (startPivot < 0) startPivot += bufSize;` normalisation loop of
`setTrig` (EduDAQ.ino:576).  Whenever `0 < b` the loop performs at most
`s.natAbs` iterations (each one adds `b ≥ 1`), so that much fuel makes the
model exact; for `b ≤ 0` the C loop would not terminate, which no reachable
state produces. -/
def normAdd (s b : Int) : Int := normAddAux b s.natAbs s

/-- Configuration struct `cfg` (EduDAQ.ino:26-65).  The PWM fields
(`pwmOn`, `pwmFreq`, `pwmDuty`) drive the Timer1 waveform generator only and
are omitted: no modelled operation reads them. -/
structure Cfg where
  nChannels : Int      -- byte, 1..6
  sampPeriod : Int     -- long, milliseconds
  adcRes : Char        -- 'L' or 'H'
  trigChannel : Int    -- byte, 0..5
  trigMode : Char      -- 'e', 'l', '\\', '/', 'x'
  trigThresh : Int     -- 0..1023
  preTrigSamp : Int
  acqDelay : Int
  nSamples : Int
  valSep : Char
  graphMode : Bool
  deriving Repr, DecidableEq

/-- The global mutable state of the firmware (EduDAQ.ino:68-103). -/
structure DaqState where
  cfg : Cfg
  bufSize : Int                      -- = cfg.nChannels * cfg.nSamples
  sampBuf : Nat → Nat                -- high 8 bits of each 10-bit sample
  sampBufL : Nat → Nat               -- packed low 2 bits, 4 samples per byte
  acqDelayCnt : Int
  skipCnt : Nat                      -- unsigned long
  trigIgnoreFirstNSamples : Int      -- volatile int
  curPivot : Int
  curChannel : Int                   -- byte
  trigPivot : Int
  startPivot : Int
  adcCur : Int → Int                 -- volatile int adcCur[maxChannels]
  trigger : Bool
  acqStarted : Bool
  acqComplete : Bool
  sampAvail : Bool

/-- `toBuf(sample, i)` (EduDAQ.ino:537-544): packs a 10-bit ADC value into the
two byte arrays.  `B000011 = 3`; `~(B000011 << shift)` masked to the byte is
`255 ^^^ (3 <<< shift)`; the byte store of the high bits is `% 256`. -/
def toBuf (sample : Nat) (i : Nat) (st : DaqState) : DaqState :=
  let li := i / 4
  let shift := (i % 4) * 2
  { st with
    sampBufL := Function.update st.sampBufL li
      ((st.sampBufL li &&& (255 ^^^ (3 <<< shift))) ||| ((sample &&& 3) <<< shift)),
    sampBuf := Function.update st.sampBuf i ((sample >>> 2) % 256) }

/-- `fromBuf(i)` (EduDAQ.ino:546-554): unpacks the 10-bit value at slot `i`. -/
def fromBuf (st : DaqState) (i : Nat) : Nat :=
  let li := i / 4
  let shift := (i % 4) * 2
  (st.sampBuf i <<< 2) ||| ((st.sampBufL li >>> shift) &&& 3)

/-- `clearBuf()` (EduDAQ.ino:556-559). -/
def clearBuf (st : DaqState) : DaqState :=
  { st with sampBuf := fun _ => 0, sampBufL := fun _ => 0 }

/-- `resetBuf()` (EduDAQ.ino:561-567). -/
def resetBuf (st : DaqState) : DaqState :=
  let st := clearBuf st
  { st with
    bufSize := st.cfg.nChannels * st.cfg.nSamples,
    curPivot := 0,
    trigIgnoreFirstNSamples := 1 }

/-- `setTrig()` (EduDAQ.ino:569-577). -/
def setTrig (st : DaqState) : DaqState :=
  if st.trigger then st   -- ignore any new triggers until we have dealt with the current one
  else
    let trigPivot := (st.curPivot + st.cfg.acqDelay) % st.bufSize
    let startPivot :=
      normAdd (trigPivot - st.cfg.trigChannel - st.cfg.preTrigSamp * st.cfg.nChannels)
        st.bufSize
    { st with trigger := true, trigPivot := trigPivot, startPivot := startPivot }

/-- `resetTrig()` (EduDAQ.ino:579-582). -/
def resetTrig (st : DaqState) : DaqState :=
  { st with trigger := false, acqDelayCnt := 0 }

/-- `resetAcq()` (EduDAQ.ino:584-588). -/
def resetAcq (st : DaqState) : DaqState :=
  let st := resetTrig st
  { st with acqStarted := false, acqComplete := false }

/-- The initial global state: the default `cfg` initialisers (EduDAQ.ino:33-64),
`bufSize = cfg.nChannels*cfg.nSamples` (line 68), zero-initialised globals and
the `clearBuf()` performed by `setup()` (line 119). -/
def initState : DaqState :=
  { cfg :=
      { nChannels := 1, sampPeriod := 100, adcRes := 'L', trigChannel := 0,
        trigMode := 'e', trigThresh := 500, preTrigSamp := 5, acqDelay := 0,
        nSamples := 10, valSep := '\t', graphMode := false },
    bufSize := 1 * 10,
    sampBuf := fun _ => 0, sampBufL := fun _ => 0,
    acqDelayCnt := 0, skipCnt := 0, trigIgnoreFirstNSamples := 1,
    curPivot := 0, curChannel := 0, trigPivot := 0, startPivot := 0,
    adcCur := fun _ => 0,
    trigger := false, acqStarted := false, acqComplete := false, sampAvail := false }

/-- The threshold-crossing condition of `ISR(ADC_vect)` (EduDAQ.ino:242-243):
`adcPrev` is the previous reading of the current channel, `v` the new one. -/
def crossCond (c : Cfg) (adcPrev : Int) (v : Nat) : Prop :=
  ((c.trigMode = 'x' ∨ c.trigMode = '\\') ∧
      adcPrev > c.trigThresh ∧ (v : Int) ≤ c.trigThresh) ∨
  ((c.trigMode = 'x' ∨ c.trigMode = '/') ∧
      adcPrev < c.trigThresh ∧ (v : Int) ≥ c.trigThresh)

instance (c : Cfg) (adcPrev : Int) (v : Nat) : Decidable (crossCond c adcPrev v) := by
  unfold crossCond; infer_instance

/-- The settling-suppression / trigger-evaluation block of `ISR(ADC_vect)`
(EduDAQ.ino:236-257), run after the new reading has been stored. -/
def trigUpdate (adcPrev : Int) (v : Nat) (st : DaqState) : DaqState :=
  if 0 < st.trigIgnoreFirstNSamples then
    if st.curChannel = st.cfg.nChannels - 1 then
      { st with trigIgnoreFirstNSamples := st.trigIgnoreFirstNSamples - 1 }
    else st
  else if st.curChannel = st.cfg.trigChannel then
    let stA :=
      if st.trigger = false then
        if crossCond st.cfg adcPrev v then setTrig st else st
      else st
    if stA.trigger then
      if stA.acqDelayCnt ≥ stA.cfg.acqDelay then { stA with acqStarted := true }
      else { stA with acqDelayCnt := stA.acqDelayCnt + 1 }
    else stA
  else st

/-- The tail of `ISR(ADC_vect)` (EduDAQ.ino:259-270): advance the write pivot,
cycle the channel multiplexer, and detect a completed capture window. -/
def pivotAdvance (st : DaqState) : DaqState :=
  let st5 := { st with curPivot := (st.curPivot + 1) % st.bufSize }
  let st6 := { st5 with curChannel := (st5.curChannel + 1) % st5.cfg.nChannels }
  if st6.trigger ∧ st6.acqStarted ∧ st6.curPivot = st6.startPivot then
    { st6 with acqComplete := true }
  else st6

/-- The storing stage of a non-skipped `ISR(ADC_vect)` invocation
(EduDAQ.ino:221-234): reset the skip counter on channel 0, record the new
reading in `adcCur`, store it into the circular buffer at the current pivot,
and raise `sampAvail` on the last channel of a group. -/
def storeStage (st : DaqState) (v : Nat) : DaqState :=
  let st0 := if st.curChannel = 0 then { st with skipCnt := 0 } else st
  let st1 := { st0 with adcCur := Function.update st0.adcCur st0.curChannel (v : Int) }
  let st2 := toBuf v st1.curPivot.toNat st1
  if st2.curChannel = st2.cfg.nChannels - 1 then { st2 with sampAvail := true } else st2

/-- One invocation of `ISR(ADC_vect)` (EduDAQ.ino:214-271).  `v` is the
assembled 10-bit ADC reading `(ADCL >> 6) | (ADCH << 2)`; the LED toggle and
ADMUX channel-select register writes are hardware effects outside the model.
`adcPrev` (line 227) is read before `adcCur` is overwritten, i.e. it is
`st.adcCur st.curChannel`.  `disableISRs()` on completion stops further
invocations at the hardware level; the model only records the `acqComplete`
flag it guards. -/
def adcStep (st : DaqState) (v : Nat) : DaqState :=
  if st.curChannel = 0 ∧
      (st.skipCnt : Int) < (st.cfg.sampPeriod - st.cfg.nChannels) % 4294967296 then
    { st with skipCnt := st.skipCnt + 1 }
  else
    pivotAdvance (trigUpdate (st.adcCur st.curChannel) v (storeStage st v))

/-- A run of consecutive ADC-conversion interrupts with the given readings. -/
def runSteps (st : DaqState) (vs : List Nat) : DaqState :=
  vs.foldl adcStep st

/-!
## The serial command processor

`processInput()` (EduDAQ.ino:359-504) parses one input line with `strtol` /
`strtod` and applies the recognised settings.  The text-scanning layer only
determines which settings arrive with which parsed values; it is abstracted
into a list of `Cmd` values, one per recognised setting, in the order the
parser applies them.  Each constructor mirrors exactly one assignment site of
the parser loop, including the clamp or guard performed there.  The PWM
command `w` only touches the Timer1 waveform generator (float frequency/duty
and hardware registers) and is not modelled.
-/

inductive Cmd where
  | settingsQuery : Cmd                    -- '?' (EduDAQ.ino:378-382)
  | trigChanCmd (v : Int) : Cmd            -- optional channel of 't' (389-394)
  | trigModeCmd (c : Char) : Cmd           -- mode letter of 't' (398-402)
  | trigThreshCmd (v : Int) : Cmd          -- first number of 't' (403)
  | trigPreCmd (v : Int) : Cmd             -- second number of 't' (404)
  | trigDelayCmd (v : Int) : Cmd           -- third number of 't' (405)
  | valSepCmd (c : Char) : Cmd             -- 'v' (407-414)
  | adcResCmd (c : Char) : Cmd             -- 'r' (415-426)
  | graphModeCmd (c : Char) : Cmd          -- 'g' (427-433)
  | nSamplesCmd (v : Int) : Cmd            -- 's' (463-464)
  | nChannelsCmd (v : Int) : Cmd           -- 'n' (465-469)
  | sampPeriodCmd (v : Int) : Cmd          -- 'p' (470)
  deriving Repr, DecidableEq

/-- The parser-local variables and request flags of `processInput()`
(EduDAQ.ino:363-371). -/
structure ParseAcc where
  cfg : Cfg
  nSamplesL : Int        -- local `long nSamples`
  preTrigSampL : Int     -- local `long preTrigSamp`
  sampPeriodL : Int      -- local `long sampPeriod`
  reqResetBuf : Bool
  reqResUpdate : Bool
  reqSettingsPrint : Bool

/-- Initialisation of the parser locals (EduDAQ.ino:363-371). -/
def initAcc (c : Cfg) : ParseAcc :=
  { cfg := c, nSamplesL := c.nSamples, preTrigSampL := c.preTrigSamp,
    sampPeriodL := c.sampPeriod,
    reqResetBuf := false, reqResUpdate := false, reqSettingsPrint := false }

/-- Effect of one recognised setting, mirroring the corresponding branch of
the parser loop (EduDAQ.ino:375-473). -/
def applyCmd (a : ParseAcc) : Cmd → ParseAcc
  | .settingsQuery => { a with reqSettingsPrint := true }
  | .trigChanCmd v =>             -- guarded by `val >= 0 && val < maxChannels`
      if 0 ≤ v ∧ v < 6 then { a with cfg := { a.cfg with trigChannel := v } } else a
  | .trigModeCmd c =>
      if c = 'x' ∨ c = '\\' ∨ c = '/' ∨ c = 'e' ∨ c = 'l' then
        { a with cfg := { a.cfg with trigMode := c } }
      else a
  | .trigThreshCmd v => { a with cfg := { a.cfg with trigThresh := constrain v 0 1023 } }
  | .trigPreCmd v => { a with preTrigSampL := v }   -- constraints dealt with later
  | .trigDelayCmd v => { a with cfg := { a.cfg with acqDelay := constrain v 0 2000 } }
  | .valSepCmd c =>
      { a with cfg := { a.cfg with
          valSep := if c = 't' then '\t' else if c = 's' then ' ' else c } }
  | .adcResCmd c =>
      if (c = 'H' ∨ c = 'L') ∧ a.cfg.adcRes ≠ c then
        { a with cfg := { a.cfg with adcRes := c }, reqResUpdate := true }
      else a
  | .graphModeCmd c =>
      if c = 'Y' then { a with cfg := { a.cfg with graphMode := true } }
      else if c = 'N' then { a with cfg := { a.cfg with graphMode := false } }
      else a
  | .nSamplesCmd v => { a with nSamplesL := v }     -- dealt with later
  | .nChannelsCmd v =>
      let v2 := constrain v 1 6
      let a2 := if v2 ≠ a.cfg.nChannels then { a with reqResetBuf := true } else a
      { a2 with cfg := { a2.cfg with nChannels := v2 } }
  | .sampPeriodCmd v => { a with sampPeriodL := v }

/-- The interdependently-constrained value of `nSamples` computed after the
parse loop (EduDAQ.ino:477): `constrain(nSamples, 2, maxBufSize/cfg.nChannels)`. -/
def finalNSamples (a : ParseAcc) : Int :=
  constrain a.nSamplesL 2 (1200 / a.cfg.nChannels)

/-- Whether `resetBuf()` will run: the flag accumulated by the parse loop
or a change of `nSamples` detected at EduDAQ.ino:478. -/
def finalResetReq (a : ParseAcc) : Bool :=
  a.reqResetBuf || decide (finalNSamples a ≠ a.cfg.nSamples)

/-- The epilogue of `processInput()` (EduDAQ.ino:476-503): applies the
interdependent constraints, performs the requested resets, and always ends
with `resetAcq()`.  `printSettings()` and the ADMUX reference-voltage write
are output / hardware effects; of the resolution update only its
`trigIgnoreFirstNSamples = 1` (line 490) is state of the model. -/
def applyConstraints (st : DaqState) (a : ParseAcc) : DaqState :=
  let ns := finalNSamples a
  let cfg2 := { a.cfg with nSamples := ns }
  let cfg3 := { cfg2 with preTrigSamp := constrain a.preTrigSampL 0 (cfg2.nSamples - 1) }
  let cfg4 := { cfg3 with sampPeriod := constrain a.sampPeriodL cfg3.nChannels 900000 }
  let st1 := { st with cfg := cfg4 }
  let st2 := if finalResetReq a then resetBuf st1 else st1
  let st3 := if a.reqResUpdate then { st2 with trigIgnoreFirstNSamples := 1 } else st2
  resetAcq st3

/-- `processInput()` (EduDAQ.ino:359-504) applied to one parsed input line. -/
def processInput (st : DaqState) (cmds : List Cmd) : DaqState :=
  applyConstraints st (cmds.foldl applyCmd (initAcc st.cfg))

/-- The tail of the `acqComplete` branch of `loop()` (EduDAQ.ino:336-341),
run after the captured window has been printed: reset the acquisition and
ignore the first `preTrigSamp + 1` channel-cycles of trigger evaluation. -/
def finishReadout (st : DaqState) : DaqState :=
  let st1 := resetAcq st
  { st1 with trigIgnoreFirstNSamples := st1.cfg.preTrigSamp + 1 }

/-!
## The replay loop

The `acqComplete` branch of `loop()` (EduDAQ.ino:314-334) walks the circular
buffer once, printing one line per channel group together with a relative
timestamp.  `long` arithmetic is 32-bit two's complement on the AVR target,
modelled by `wrap32`.
-/

/-- Reduction of a mathematical integer to the 32-bit two's-complement value
an AVR `long` holds. -/
def wrap32 (x : Int) : Int := (x + 2147483648) % 4294967296 - 2147483648

/-- The loop-carried variables of the replay loop: timestamp `t`, channel
counter `c`, buffer index `i`, plus the list of timestamps printed so far. -/
structure ReplaySt where
  t : Int
  c : Int
  i : Int
  ts : List Int

/-- The replay do-while loop (EduDAQ.ino:319-334), with enough fuel for its
(at most `bufSize`) iterations; sample values are printed via `fromBuf` but
only the printed timestamps are collected here. -/
def replayIter (st : DaqState) : Nat → ReplaySt → ReplaySt
  | 0, r => r
  | fuel + 1, r =>
    let r1 := if r.c = 0 ∧ st.cfg.graphMode = false then { r with ts := r.ts ++ [r.t] } else r
    let r2 := if r1.c = st.cfg.nChannels - 1 then
        { r1 with t := wrap32 (r1.t + st.cfg.sampPeriod) } else r1
    let r3 := { r2 with c := (r2.c + 1) % st.cfg.nChannels, i := (r2.i + 1) % st.bufSize }
    if r3.i = st.startPivot then r3 else replayIter st fuel r3

/-- The timestamps printed by one complete replay of a captured window
(EduDAQ.ino:314-334): `t` starts at `(-preTrigSamp + acqDelay) * sampPeriod`
and is advanced by `sampPeriod` after each complete channel group.  The
do-while loop executes exactly `bufSize` iterations, which bounds the fuel. -/
def replayTimestamps (st : DaqState) : List Int :=
  (replayIter st st.bufSize.toNat
    { t := wrap32 ((-st.cfg.preTrigSamp + st.cfg.acqDelay) * st.cfg.sampPeriod),
      c := 0, i := st.startPivot, ts := [] }).ts

/-!
## Arithmetic facts about the normalisation loop
-/

theorem normAddAux_eq_emod {b : Int} (hb : 0 < b) :
    ∀ (fuel : Nat) (s : Int), s < b → -s ≤ (fuel : Int) → normAddAux b fuel s = s % b := by
  intro fuel
  induction fuel with
  | zero =>
    intro s hsb hfuel
    have h0 : 0 ≤ s := by omega
    simpa [normAddAux, show ¬ s < 0 by omega] using (Int.emod_eq_of_lt h0 hsb).symm
  | succ n ih =>
    intro s hsb hfuel
    by_cases hs : s < 0
    · have h1 : s + b < b := by omega
      have h2 : -(s + b) ≤ (n : Int) := by omega
      calc normAddAux b (n + 1) s = normAddAux b n (s + b) := by simp [normAddAux, hs]
        _ = (s + b) % b := ih (s + b) h1 h2
        _ = s % b := by simp
    · have h0 : 0 ≤ s := by omega
      simpa [normAddAux, hs] using (Int.emod_eq_of_lt h0 hsb).symm

theorem normAdd_eq_emod {s b : Int} (hb : 0 < b) (hsb : s < b) : normAdd s b = s % b :=
  normAddAux_eq_emod hb s.natAbs s hsb (by omega)

/-!
## C1 — window-start arithmetic of `setTrig`
-/

/-- The configuration/state of the spec's trigger-arithmetic example:
`currentPivot = 50`, `acquisitionDelay = 3`, `bufSize = 100`,
`trigChannel = 1`, `preTriggerSamples = 5`, `nChannels = 2`. -/
def exTrigState : DaqState :=
  { initState with
    cfg :=
      { initState.cfg with
        acqDelay := 3, trigChannel := 1, preTrigSamp := 5,
        nChannels := 2, nSamples := 50 },
    bufSize := 100, curPivot := 50 }

/-- **C1.** When the trigger fires from the un-fired state, `setTrig` computes
`trigPivot = (curPivot + acqDelay) % bufSize` and a window start equal to
`trigPivot − trigChannel − preTrigSamp·nChannels` normalised into
`[0, bufSize)` by repeated addition of `bufSize` — which, the while-loop
being started below `bufSize`, is exactly the mathematical residue
(Euclidean `%`); in particular the result lies in `[0, bufSize)`. -/
theorem setTrig_window_start (st : DaqState)
    (ht : st.trigger = false)
    (hb : 0 < st.bufSize)
    (hp : 0 ≤ st.curPivot) (hd : 0 ≤ st.cfg.acqDelay)
    (hc : 0 ≤ st.cfg.trigChannel) (hpre : 0 ≤ st.cfg.preTrigSamp * st.cfg.nChannels) :
    (setTrig st).trigPivot = (st.curPivot + st.cfg.acqDelay) % st.bufSize ∧
    (setTrig st).startPivot =
      ((st.curPivot + st.cfg.acqDelay) % st.bufSize -
        st.cfg.trigChannel - st.cfg.preTrigSamp * st.cfg.nChannels) % st.bufSize ∧
    0 ≤ (setTrig st).startPivot ∧ (setTrig st).startPivot < st.bufSize := by
  have hlt : (st.curPivot + st.cfg.acqDelay) % st.bufSize < st.bufSize :=
    Int.emod_lt_of_pos _ hb
  have hs : (st.curPivot + st.cfg.acqDelay) % st.bufSize -
      st.cfg.trigChannel - st.cfg.preTrigSamp * st.cfg.nChannels < st.bufSize := by omega
  have h2 : (setTrig st).startPivot =
      normAdd ((st.curPivot + st.cfg.acqDelay) % st.bufSize -
        st.cfg.trigChannel - st.cfg.preTrigSamp * st.cfg.nChannels) st.bufSize := by
    simp [setTrig, ht]
  refine ⟨by simp [setTrig, ht], ?_, ?_, ?_⟩
  · rw [h2, normAdd_eq_emod hb hs]
  · rw [h2, normAdd_eq_emod hb hs]; exact Int.emod_nonneg _ (by omega)
  · rw [h2, normAdd_eq_emod hb hs]; exact Int.emod_lt_of_pos _ hb

/-- Witness for C1 at the spec's concrete example: the computed capture-start
index is `42` (and the trigger pivot `53`). -/
theorem setTrig_window_start_witness :
    (setTrig exTrigState).startPivot = 42 ∧ (setTrig exTrigState).trigPivot = 53 := by
  have h := setTrig_window_start exTrigState (by decide) (by decide) (by decide)
    (by decide) (by decide) (by decide)
  exact ⟨by rw [h.2.1]; decide, by rw [h.1]; decide⟩

/-!
## Structural lemmas about the interrupt step
-/

theorem setTrig_of_trigger {st : DaqState} (h : st.trigger = true) : setTrig st = st := by
  simp [setTrig, h]

@[simp] theorem storeStage_cfg (st : DaqState) (v : Nat) :
    (storeStage st v).cfg = st.cfg := by
  simp only [storeStage, toBuf]; split_ifs <;> rfl

@[simp] theorem storeStage_bufSize (st : DaqState) (v : Nat) :
    (storeStage st v).bufSize = st.bufSize := by
  simp only [storeStage, toBuf]; split_ifs <;> rfl

@[simp] theorem storeStage_curPivot (st : DaqState) (v : Nat) :
    (storeStage st v).curPivot = st.curPivot := by
  simp only [storeStage, toBuf]; split_ifs <;> rfl

@[simp] theorem storeStage_curChannel (st : DaqState) (v : Nat) :
    (storeStage st v).curChannel = st.curChannel := by
  simp only [storeStage, toBuf]; split_ifs <;> rfl

@[simp] theorem storeStage_trigger (st : DaqState) (v : Nat) :
    (storeStage st v).trigger = st.trigger := by
  simp only [storeStage, toBuf]; split_ifs <;> rfl

@[simp] theorem storeStage_acqStarted (st : DaqState) (v : Nat) :
    (storeStage st v).acqStarted = st.acqStarted := by
  simp only [storeStage, toBuf]; split_ifs <;> rfl

@[simp] theorem storeStage_acqComplete (st : DaqState) (v : Nat) :
    (storeStage st v).acqComplete = st.acqComplete := by
  simp only [storeStage, toBuf]; split_ifs <;> rfl

@[simp] theorem storeStage_startPivot (st : DaqState) (v : Nat) :
    (storeStage st v).startPivot = st.startPivot := by
  simp only [storeStage, toBuf]; split_ifs <;> rfl

@[simp] theorem storeStage_trigPivot (st : DaqState) (v : Nat) :
    (storeStage st v).trigPivot = st.trigPivot := by
  simp only [storeStage, toBuf]; split_ifs <;> rfl

@[simp] theorem storeStage_acqDelayCnt (st : DaqState) (v : Nat) :
    (storeStage st v).acqDelayCnt = st.acqDelayCnt := by
  simp only [storeStage, toBuf]; split_ifs <;> rfl

@[simp] theorem storeStage_trigIgnore (st : DaqState) (v : Nat) :
    (storeStage st v).trigIgnoreFirstNSamples = st.trigIgnoreFirstNSamples := by
  simp only [storeStage, toBuf]; split_ifs <;> rfl

@[simp] theorem trigUpdate_cfg (p : Int) (v : Nat) (st : DaqState) :
    (trigUpdate p v st).cfg = st.cfg := by
  simp only [trigUpdate, setTrig]; split_ifs <;> rfl

@[simp] theorem trigUpdate_bufSize (p : Int) (v : Nat) (st : DaqState) :
    (trigUpdate p v st).bufSize = st.bufSize := by
  simp only [trigUpdate, setTrig]; split_ifs <;> rfl

@[simp] theorem trigUpdate_curPivot (p : Int) (v : Nat) (st : DaqState) :
    (trigUpdate p v st).curPivot = st.curPivot := by
  simp only [trigUpdate, setTrig]; split_ifs <;> rfl

@[simp] theorem trigUpdate_curChannel (p : Int) (v : Nat) (st : DaqState) :
    (trigUpdate p v st).curChannel = st.curChannel := by
  simp only [trigUpdate, setTrig]; split_ifs <;> rfl

@[simp] theorem trigUpdate_sampBuf (p : Int) (v : Nat) (st : DaqState) :
    (trigUpdate p v st).sampBuf = st.sampBuf := by
  simp only [trigUpdate, setTrig]; split_ifs <;> rfl

@[simp] theorem trigUpdate_sampBufL (p : Int) (v : Nat) (st : DaqState) :
    (trigUpdate p v st).sampBufL = st.sampBufL := by
  simp only [trigUpdate, setTrig]; split_ifs <;> rfl

@[simp] theorem trigUpdate_acqComplete (p : Int) (v : Nat) (st : DaqState) :
    (trigUpdate p v st).acqComplete = st.acqComplete := by
  simp only [trigUpdate, setTrig]; split_ifs <;> rfl

@[simp] theorem trigUpdate_skipCnt (p : Int) (v : Nat) (st : DaqState) :
    (trigUpdate p v st).skipCnt = st.skipCnt := by
  simp only [trigUpdate, setTrig]; split_ifs <;> rfl

/-- `trigUpdate` never lowers a raised trigger. -/
theorem trigUpdate_trigger_of_true (p : Int) (v : Nat) {st : DaqState}
    (h : st.trigger = true) : (trigUpdate p v st).trigger = true := by
  simp only [trigUpdate, h]; split_ifs <;> simp_all

/-- With a pending trigger, `trigUpdate` leaves the window anchors alone
(`setTrig` is not reached). -/
theorem trigUpdate_startPivot_of_true (p : Int) (v : Nat) {st : DaqState}
    (h : st.trigger = true) : (trigUpdate p v st).startPivot = st.startPivot := by
  simp only [trigUpdate, h]; split_ifs <;> simp_all

/-- `acqStarted` is only ever raised by `trigUpdate`, never cleared. -/
theorem trigUpdate_acqStarted_of_true (p : Int) (v : Nat) {st : DaqState}
    (h : st.acqStarted = true) : (trigUpdate p v st).acqStarted = true := by
  simp only [trigUpdate, setTrig, h]; split_ifs <;> simp_all

/-- While the settling counter is positive, `trigUpdate` only decrements it
(at the end of a channel-cycle); no trigger evaluation happens. -/
theorem trigUpdate_of_ignore (p : Int) (v : Nat) {st : DaqState}
    (h : 0 < st.trigIgnoreFirstNSamples) :
    trigUpdate p v st =
      (if st.curChannel = st.cfg.nChannels - 1 then
        { st with trigIgnoreFirstNSamples := st.trigIgnoreFirstNSamples - 1 }
      else st) := by
  simp only [trigUpdate, h, if_pos]

@[simp] theorem pivotAdvance_cfg (st : DaqState) :
    (pivotAdvance st).cfg = st.cfg := by
  simp only [pivotAdvance]; split_ifs <;> rfl

@[simp] theorem pivotAdvance_bufSize (st : DaqState) :
    (pivotAdvance st).bufSize = st.bufSize := by
  simp only [pivotAdvance]; split_ifs <;> rfl

@[simp] theorem pivotAdvance_trigger (st : DaqState) :
    (pivotAdvance st).trigger = st.trigger := by
  simp only [pivotAdvance]; split_ifs <;> rfl

@[simp] theorem pivotAdvance_acqStarted (st : DaqState) :
    (pivotAdvance st).acqStarted = st.acqStarted := by
  simp only [pivotAdvance]; split_ifs <;> rfl

@[simp] theorem pivotAdvance_startPivot (st : DaqState) :
    (pivotAdvance st).startPivot = st.startPivot := by
  simp only [pivotAdvance]; split_ifs <;> rfl

@[simp] theorem pivotAdvance_trigIgnore (st : DaqState) :
    (pivotAdvance st).trigIgnoreFirstNSamples = st.trigIgnoreFirstNSamples := by
  simp only [pivotAdvance]; split_ifs <;> rfl

@[simp] theorem pivotAdvance_sampBuf (st : DaqState) :
    (pivotAdvance st).sampBuf = st.sampBuf := by
  simp only [pivotAdvance]; split_ifs <;> rfl

@[simp] theorem pivotAdvance_sampBufL (st : DaqState) :
    (pivotAdvance st).sampBufL = st.sampBufL := by
  simp only [pivotAdvance]; split_ifs <;> rfl

@[simp] theorem pivotAdvance_skipCnt (st : DaqState) :
    (pivotAdvance st).skipCnt = st.skipCnt := by
  simp only [pivotAdvance]; split_ifs <;> rfl

@[simp] theorem pivotAdvance_curPivot (st : DaqState) :
    (pivotAdvance st).curPivot = (st.curPivot + 1) % st.bufSize := by
  simp only [pivotAdvance]; split_ifs <;> rfl

/-- `acqComplete` after the pivot advance: it is raised exactly when a
trigger is pending, the delay has elapsed, and the advanced pivot re-reaches
the capture start (EduDAQ.ino:267-270); otherwise it is untouched. -/
theorem pivotAdvance_acqComplete (st : DaqState) :
    (pivotAdvance st).acqComplete = true ↔
      (st.acqComplete = true ∨
        (st.trigger = true ∧ st.acqStarted = true ∧
          (st.curPivot + 1) % st.bufSize = st.startPivot)) := by
  simp only [pivotAdvance]
  split_ifs with h
  · simp_all
  · simp only [not_and_or] at h
    constructor
    · intro hc; exact Or.inl hc
    · rintro (hc | ⟨h1, h2, h3⟩)
      · exact hc
      · exfalso; rcases h with h | h | h <;> simp_all

/-- The throttle condition of `ISR(ADC_vect)` (EduDAQ.ino:215-219): on channel
0, conversions are skipped until the skip counter reaches
`cfg.sampPeriod - cfg.nChannels` (an `unsigned long` comparison). -/
def isSkip (st : DaqState) : Prop :=
  st.curChannel = 0 ∧
    (st.skipCnt : Int) < (st.cfg.sampPeriod - st.cfg.nChannels) % 4294967296

instance (st : DaqState) : Decidable (isSkip st) := by unfold isSkip; infer_instance

theorem adcStep_skip {st : DaqState} (v : Nat) (h : isSkip st) :
    adcStep st v = { st with skipCnt := st.skipCnt + 1 } := by
  simp only [adcStep, isSkip] at h ⊢; rw [if_pos h]

theorem adcStep_proc {st : DaqState} (v : Nat) (h : ¬ isSkip st) :
    adcStep st v =
      pivotAdvance (trigUpdate (st.adcCur st.curChannel) v (storeStage st v)) := by
  simp only [adcStep, isSkip] at h ⊢; rw [if_neg h]

@[simp] theorem adcStep_cfg (st : DaqState) (v : Nat) : (adcStep st v).cfg = st.cfg := by
  by_cases h : isSkip st
  · rw [adcStep_skip v h]
  · rw [adcStep_proc v h]; simp

@[simp] theorem adcStep_bufSize (st : DaqState) (v : Nat) :
    (adcStep st v).bufSize = st.bufSize := by
  by_cases h : isSkip st
  · rw [adcStep_skip v h]
  · rw [adcStep_proc v h]; simp

/-- A raised trigger survives any interrupt invocation: `setTrig` is guarded
by `!trigger` and nothing else in the ISR clears the flag. -/
theorem adcStep_trigger_of_true {st : DaqState} (v : Nat) (h : st.trigger = true) :
    (adcStep st v).trigger = true := by
  by_cases hs : isSkip st
  · rw [adcStep_skip v hs]; exact h
  · rw [adcStep_proc v hs, pivotAdvance_trigger]
    exact trigUpdate_trigger_of_true _ _ (by simp [h])

/-- A raised `acqStarted` survives any interrupt invocation. -/
theorem adcStep_acqStarted_of_true {st : DaqState} (v : Nat) (h : st.acqStarted = true) :
    (adcStep st v).acqStarted = true := by
  by_cases hs : isSkip st
  · rw [adcStep_skip v hs]; exact h
  · rw [adcStep_proc v hs, pivotAdvance_acqStarted]
    exact trigUpdate_acqStarted_of_true _ _ (by simp [h])

/-- With a pending trigger the window anchor `startPivot` is frozen for the
rest of the capture. -/
theorem adcStep_startPivot_of_true {st : DaqState} (v : Nat) (h : st.trigger = true) :
    (adcStep st v).startPivot = st.startPivot := by
  by_cases hs : isSkip st
  · rw [adcStep_skip v hs]
  · rw [adcStep_proc v hs, pivotAdvance_startPivot,
      trigUpdate_startPivot_of_true _ _ (by simp [h]), storeStage_startPivot]

/-- `acqComplete` is only cleared by the resets, never by the ISR. -/
theorem adcStep_acqComplete_of_true {st : DaqState} (v : Nat) (h : st.acqComplete = true) :
    (adcStep st v).acqComplete = true := by
  by_cases hs : isSkip st
  · rw [adcStep_skip v hs]; exact h
  · rw [adcStep_proc v hs]
    rw [pivotAdvance_acqComplete]
    exact Or.inl (by simp [h])

/-!
## C7 — duplicate trigger events are dropped
-/

/-- **C7.** A trigger event arriving while a trigger is already pending is
silently dropped: `setTrig` returns with the whole state (in particular the
`trigger` flag, `trigPivot` and `startPivot`) unchanged; the pending flag
survives every sampling interrupt, so no later event can re-arm either, until
the post-readout reset returns the engine to the idle state. -/
theorem pending_trigger_drops_events (st : DaqState) (h : st.trigger = true) :
    setTrig st = st ∧
    (∀ v : Nat, (adcStep st v).trigger = true) ∧
    (finishReadout st).trigger = false := by
  refine ⟨setTrig_of_trigger h, fun v => adcStep_trigger_of_true v h, ?_⟩
  simp [finishReadout, resetAcq, resetTrig]

/-- Witness for C7: with a pending trigger, a `setTrig` call is a no-op and a
sampling step keeps the trigger pending. -/
theorem pending_trigger_drops_events_witness :
    setTrig { initState with trigger := true } = { initState with trigger := true } ∧
    (adcStep { initState with trigger := true } 700).trigger = true := by
  refine ⟨(pending_trigger_drops_events _ rfl).1, ?_⟩
  exact (pending_trigger_drops_events { initState with trigger := true } rfl).2.1 700

/-!
## C2 — edge detection on the trigger channel
-/

/-- With suppression inactive, no trigger pending, and the sample landing on
the trigger channel, `trigUpdate` raises the trigger exactly when the
threshold-crossing condition holds. -/
theorem trigUpdate_fire_iff (p : Int) (v : Nat) {st : DaqState}
    (hig : st.trigIgnoreFirstNSamples ≤ 0)
    (hch : st.curChannel = st.cfg.trigChannel)
    (ht : st.trigger = false) :
    ((trigUpdate p v st).trigger = true ↔ crossCond st.cfg p v) := by
  have hig' : ¬ 0 < st.trigIgnoreFirstNSamples := by omega
  simp only [trigUpdate, hig', if_false, hch, if_pos, ht]
  by_cases hc : crossCond st.cfg p v
  · simp only [hc, if_pos, setTrig, ht, Bool.false_eq_true, if_false]
    split_ifs <;> simp
  · simp [hc, ht]

/-- Under the same conditions the interrupt step as a whole raises the
trigger exactly when the crossing condition holds between the stored previous
reading of the trigger channel and the new sample. -/
theorem adcStep_fire_iff (v : Nat) {st : DaqState}
    (hskip : ¬ isSkip st)
    (hig : st.trigIgnoreFirstNSamples ≤ 0)
    (hch : st.curChannel = st.cfg.trigChannel)
    (ht : st.trigger = false) :
    ((adcStep st v).trigger = true ↔
      crossCond st.cfg (st.adcCur st.cfg.trigChannel) v) := by
  rw [adcStep_proc v hskip, pivotAdvance_trigger, hch]
  have h := @trigUpdate_fire_iff (st.adcCur st.cfg.trigChannel) v (storeStage st v)
    (by simpa using hig) (by simp [hch]) (by simpa using ht)
  simpa using h

/-- **C2.** When a sample on the trigger channel is processed with settling
suppression inactive and no trigger pending, the trigger fires in rising mode
(`'/'`) iff `prev < threshold ≤ current`, in falling mode (`'\'`) iff
`prev > threshold ≥ current`, and in crossing mode (`'x'`) iff either
condition holds, where `prev` is the previous stored reading of the trigger
channel and `current` the newly delivered sample. -/
theorem edge_detection (st : DaqState) (v : Nat)
    (hskip : ¬ isSkip st)
    (hig : st.trigIgnoreFirstNSamples ≤ 0)
    (hch : st.curChannel = st.cfg.trigChannel)
    (ht : st.trigger = false) :
    (st.cfg.trigMode = '/' →
      ((adcStep st v).trigger = true ↔
        st.adcCur st.cfg.trigChannel < st.cfg.trigThresh ∧ st.cfg.trigThresh ≤ (v : Int))) ∧
    (st.cfg.trigMode = '\\' →
      ((adcStep st v).trigger = true ↔
        st.adcCur st.cfg.trigChannel > st.cfg.trigThresh ∧ st.cfg.trigThresh ≥ (v : Int))) ∧
    (st.cfg.trigMode = 'x' →
      ((adcStep st v).trigger = true ↔
        ((st.adcCur st.cfg.trigChannel < st.cfg.trigThresh ∧ st.cfg.trigThresh ≤ (v : Int)) ∨
         (st.adcCur st.cfg.trigChannel > st.cfg.trigThresh ∧ st.cfg.trigThresh ≥ (v : Int))))) := by
  have key := adcStep_fire_iff v hskip hig hch ht
  refine ⟨fun hm => ?_, fun hm => ?_, fun hm => ?_⟩ <;>
    · rw [key]
      simp [crossCond, hm]
      try tauto

/-- The state of C2's concrete rising-edge scenario: rising mode, threshold
500, previous reading 498 on the (single) trigger channel, suppression over. -/
def exEdgeState : DaqState :=
  { initState with
    cfg :=
      { initState.cfg with
        trigMode := '/', sampPeriod := 1 },
    trigIgnoreFirstNSamples := 0,
    adcCur := fun _ => 498 }

/-- Witness for C2: with threshold 500 and previous reading 498, the new
sample 502 fires the trigger in rising mode. -/
theorem edge_detection_witness : (adcStep exEdgeState 502).trigger = true := by
  have h := edge_detection exEdgeState 502 (by decide) (by decide) (by decide) (by decide)
  exact (h.1 (by decide)).mpr (by decide)

/-!
## C3 — settling suppression after a buffer reset
-/

/-- A processed (non-skipped) invocation landing on the last channel of a
channel-cycle: exactly these invocations decrement a positive settling
counter (EduDAQ.ino:236-238). -/
def isCycleEnd (st : DaqState) : Prop :=
  ¬ isSkip st ∧ st.curChannel = st.cfg.nChannels - 1

instance (st : DaqState) : Decidable (isCycleEnd st) := by
  unfold isCycleEnd; infer_instance

/-- Number of channel-cycle completions during a run of interrupt
invocations with the given readings. -/
def countCycleEnds (st : DaqState) : List Nat → Nat
  | [] => 0
  | v :: vs => (if isCycleEnd st then 1 else 0) + countCycleEnds (adcStep st v) vs

/-- A single invocation under active settling suppression: the trigger cannot
fire, and the counter drops by one exactly on a cycle end. -/
theorem adcStep_suppressed {st : DaqState} (v : Nat)
    (h : 0 < st.trigIgnoreFirstNSamples) (ht : st.trigger = false) :
    (adcStep st v).trigger = false ∧
    (adcStep st v).trigIgnoreFirstNSamples =
      st.trigIgnoreFirstNSamples - (if isCycleEnd st then 1 else 0) := by
  by_cases hs : isSkip st
  · rw [adcStep_skip v hs]
    exact ⟨ht, by simp [isCycleEnd, hs]⟩
  · rw [adcStep_proc v hs, pivotAdvance_trigger, pivotAdvance_trigIgnore,
      trigUpdate_of_ignore _ _ (by simpa using h)]
    by_cases hc : st.curChannel = st.cfg.nChannels - 1 <;>
      simp [isCycleEnd, hs, hc, ht]

/-- Run form of the suppression property: as long as fewer channel-cycles
complete than the settling counter allows, the trigger stays down and the
counter decreases by exactly the number of completed cycles. -/
theorem suppressed_run (vs : List Nat) : ∀ st : DaqState, st.trigger = false →
    (countCycleEnds st vs : Int) < st.trigIgnoreFirstNSamples →
    (runSteps st vs).trigger = false ∧
    (runSteps st vs).trigIgnoreFirstNSamples =
      st.trigIgnoreFirstNSamples - countCycleEnds st vs := by
  induction vs with
  | nil => intro st ht _; exact ⟨ht, by simp [runSteps, countCycleEnds]⟩
  | cons v vs ih =>
    intro st ht hcnt
    have hpos : 0 < st.trigIgnoreFirstNSamples := by
      have : (0 : Int) ≤ (countCycleEnds st (v :: vs) : Int) := by positivity
      omega
    obtain ⟨ht', hig'⟩ := adcStep_suppressed v hpos ht
    have hrw : countCycleEnds st (v :: vs) =
        (if isCycleEnd st then 1 else 0) + countCycleEnds (adcStep st v) vs := rfl
    have hcnt' : (countCycleEnds (adcStep st v) vs : Int) <
        (adcStep st v).trigIgnoreFirstNSamples := by
      rw [hig']; rw [hrw] at hcnt; split_ifs at hcnt ⊢ <;> push_cast at hcnt ⊢ <;> omega
    obtain ⟨h1, h2⟩ := ih (adcStep st v) ht' hcnt'
    have hrun : runSteps st (v :: vs) = runSteps (adcStep st v) vs := rfl
    refine ⟨by rw [hrun]; exact h1, ?_⟩
    rw [hrun, h2, hig', hrw]
    split_ifs <;> push_cast <;> omega

/-- **C3 (amended).** What the code actually guarantees after a reset:
`resetBuf()` sets the settling counter to `1` — not `preTrigSamp + 1`, which
is only installed after a completed readout (`finishReadout`).  While the
counter is positive no trigger can fire: for any run in which fewer
channel-cycles complete than the counter's value, the trigger stays down
through the whole run and through one further invocation (so with counter
`1` the entire first channel-cycle after a buffer reset is protected, and
with counter `preTrigSamp + 1` after a readout the first `preTrigSamp + 1`
cycles are). -/
theorem settling_suppression (st : DaqState) (vs : List Nat)
    (ht : st.trigger = false)
    (hcnt : (countCycleEnds st vs : Int) < st.trigIgnoreFirstNSamples) :
    (∀ s : DaqState, (resetBuf s).trigIgnoreFirstNSamples = 1) ∧
    (∀ s : DaqState, (finishReadout s).trigIgnoreFirstNSamples = s.cfg.preTrigSamp + 1) ∧
    (runSteps st vs).trigger = false ∧
    (runSteps st vs).trigIgnoreFirstNSamples =
      st.trigIgnoreFirstNSamples - countCycleEnds st vs ∧
    (∀ v : Nat, (runSteps st (vs ++ [v])).trigger = false) := by
  obtain ⟨h1, h2⟩ := suppressed_run vs st ht hcnt
  refine ⟨fun s => rfl, fun s => rfl, h1, h2, fun v => ?_⟩
  have : runSteps st (vs ++ [v]) = adcStep (runSteps st vs) v := by
    simp [runSteps]
  rw [this]
  have hpos : 0 < (runSteps st vs).trigIgnoreFirstNSamples := by
    rw [h2]
    have : (0 : Int) ≤ (countCycleEnds st vs : Int) := by positivity
    have hle : (countCycleEnds st vs : Int) ≤ (countCycleEnds st (vs)) := le_refl _
    omega
  exact (adcStep_suppressed v hpos h1).1

/-- Base state for the C3 scenario: rising-edge mode, threshold 500, one
channel, `preTrigSamp = 5`, throttle disabled (`sampPeriod = nChannels`). -/
def exC3Base : DaqState :=
  { initState with
    cfg := { initState.cfg with trigMode := '/', sampPeriod := 1 } }

/-- **C3 counterexample.**  The claim says that after a buffer reset caused by
an applied configuration change (here `s 20`, changing `nSamples` from 10 to
20) with `preTrigSamp = 5`, no trigger can fire during the first 6 complete
channel-cycles.  In fact `resetBuf()` arms the settling counter with `1`
only: with one channel, the reading 498 in cycle 1 is suppressed, but the
reading 502 in cycle 2 — well inside the claimed 6-cycle blind window —
fires the trigger. -/
theorem settling_suppression_counterexample :
    (processInput exC3Base [Cmd.nSamplesCmd 20]).cfg.preTrigSamp = 5 ∧
    (processInput exC3Base [Cmd.nSamplesCmd 20]).trigIgnoreFirstNSamples = 1 ∧
    (runSteps (processInput exC3Base [Cmd.nSamplesCmd 20]) [498]).trigger = false ∧
    (runSteps (processInput exC3Base [Cmd.nSamplesCmd 20]) [498, 502]).trigger = true :=
  ⟨by decide, by decide, by decide, by decide⟩

/-- Witness for the amended C3: after the same buffer reset, the whole first
channel-cycle (its only sample, `nChannels = 1`) is protected even though the
value 502 crosses the threshold from the stale previous reading. -/
theorem settling_suppression_witness :
    (runSteps (processInput exC3Base [Cmd.nSamplesCmd 20]) ([] ++ [502])).trigger = false := by
  have h := settling_suppression (processInput exC3Base [Cmd.nSamplesCmd 20]) []
    (by decide) (by decide)
  exact h.2.2.2.2 502

/-!
## C4 — capture completion exactly when the pivot re-reaches the window start
-/

/-- With `sampPeriod = nChannels` the skip threshold is zero, so no
invocation is throttled. -/
theorem not_isSkip_of_period_eq {st : DaqState}
    (h : st.cfg.sampPeriod = st.cfg.nChannels) : ¬ isSkip st := by
  rintro ⟨-, hlt⟩
  rw [h] at hlt
  simp at hlt
  omega

theorem adcStep_curPivot_proc {st : DaqState} (v : Nat) (hns : ¬ isSkip st) :
    (adcStep st v).curPivot = (st.curPivot + 1) % st.bufSize := by
  rw [adcStep_proc v hns]; simp

/-- During an armed capture (trigger pending, delay elapsed), one processed
invocation raises `acqComplete` exactly when the advanced pivot equals the
capture start index. -/
theorem adcStep_acqComplete_iff {st : DaqState} (v : Nat) (hns : ¬ isSkip st)
    (ht : st.trigger = true) (ha : st.acqStarted = true) :
    ((adcStep st v).acqComplete = true ↔
      st.acqComplete = true ∨ (st.curPivot + 1) % st.bufSize = st.startPivot) := by
  rw [adcStep_proc v hns, pivotAdvance_acqComplete]
  have h1 : (trigUpdate (st.adcCur st.curChannel) v (storeStage st v)).trigger = true :=
    trigUpdate_trigger_of_true _ _ (by simp [ht])
  have h2 : (trigUpdate (st.adcCur st.curChannel) v (storeStage st v)).acqStarted = true :=
    trigUpdate_acqStarted_of_true _ _ (by simp [ha])
  have h3 : (trigUpdate (st.adcCur st.curChannel) v (storeStage st v)).startPivot =
      st.startPivot := by
    rw [trigUpdate_startPivot_of_true _ _ (by simp [ht])]; simp
  simp [h1, h2, h3]

theorem runSteps_acqComplete_of_true (vs : List Nat) : ∀ (st : DaqState),
    st.acqComplete = true → (runSteps st vs).acqComplete = true := by
  induction vs with
  | nil => intro st h; exact h
  | cons v vs ih =>
    intro st h
    exact ih (adcStep st v) (adcStep_acqComplete_of_true v h)

/-- **C4.** Once a trigger has fired and the acquisition delay has elapsed
(`trigger` and `acqStarted` both set), a run of sampling interrupts ends with
`acqComplete` raised exactly when some step of the run advanced the write
pivot onto the computed capture start index — i.e. completion happens at the
first such step and never before.  (`sampPeriod = nChannels` switches the
conversion throttle off, so every invocation processes one sample; skipped
invocations advance nothing.) -/
theorem capture_completion (vs : List Nat) : ∀ (st : DaqState),
    st.trigger = true → st.acqStarted = true → st.acqComplete = false →
    st.cfg.sampPeriod = st.cfg.nChannels →
    ((runSteps st vs).acqComplete = true ↔
      ∃ k : Nat, 1 ≤ k ∧ k ≤ vs.length ∧
        (st.curPivot + (k : Int)) % st.bufSize = st.startPivot) := by
  induction vs with
  | nil =>
    intro st ht ha hc _
    simp only [runSteps, List.foldl_nil, List.length_nil, hc]
    constructor
    · intro h; cases h
    · rintro ⟨k, hk1, hk2, -⟩; omega
  | cons v vs ih =>
    intro st ht ha hc hthr
    have hns : ¬ isSkip st := not_isSkip_of_period_eq hthr
    have hrun : runSteps st (v :: vs) = runSteps (adcStep st v) vs := rfl
    have hstep := adcStep_acqComplete_iff v hns ht ha
    simp only [hc, Bool.false_eq_true, false_or] at hstep
    by_cases hdone : (st.curPivot + 1) % st.bufSize = st.startPivot
    · have : (adcStep st v).acqComplete = true := hstep.mpr hdone
      rw [hrun]
      constructor
      · intro _
        exact ⟨1, le_refl 1, by simp, by push_cast; simpa using hdone⟩
      · intro _
        exact runSteps_acqComplete_of_true vs _ this
    · have hc' : (adcStep st v).acqComplete = false := by
        rcases h : (adcStep st v).acqComplete with _ | _
        · rfl
        · exact absurd (hstep.mp h) hdone
      have hiff := ih (adcStep st v) (adcStep_trigger_of_true v ht)
        (adcStep_acqStarted_of_true v ha) hc' (by simpa using hthr)
      rw [hrun, hiff]
      rw [adcStep_curPivot_proc v hns, adcStep_bufSize,
        adcStep_startPivot_of_true v ht]
      constructor
      · rintro ⟨k, hk1, hk2, hk3⟩
        refine ⟨k + 1, by omega, by simp; omega, ?_⟩
        rw [Int.emod_add_emod] at hk3
        push_cast
        convert hk3 using 2
        ring
      · rintro ⟨k, hk1, hk2, hk3⟩
        have hk1' : k ≠ 1 := by
          rintro rfl
          exact hdone (by push_cast at hk3; simpa using hk3)
        obtain ⟨k', rfl⟩ : ∃ k', k = k' + 1 := ⟨k - 1, by omega⟩
        refine ⟨k', by omega, by simp at hk2; omega, ?_⟩
        rw [Int.emod_add_emod]
        push_cast at hk3
        convert hk3 using 2
        ring

/-- State for the C4 witness: armed capture, one channel, throttle off,
pivot 2, window start 5, buffer size 10. -/
def exCapState : DaqState :=
  { initState with
    cfg := { initState.cfg with sampPeriod := 1 },
    trigger := true, acqStarted := true,
    curPivot := 2, startPivot := 5 }

/-- Witness for C4: from pivot 2 with start index 5 (buffer size 10), the
third processed sample completes the capture — and, by the same theorem, two
samples do not. -/
theorem capture_completion_witness :
    (runSteps exCapState [7, 7, 7]).acqComplete = true ∧
    (runSteps exCapState [7, 7]).acqComplete = false := by
  constructor
  · exact (capture_completion [7, 7, 7] exCapState rfl rfl rfl rfl).mpr
      ⟨3, by decide, by decide, by decide⟩
  · have h := capture_completion [7, 7] exCapState rfl rfl rfl rfl
    rcases hb : (runSteps exCapState [7, 7]).acqComplete with _ | _
    · rfl
    · exfalso
      obtain ⟨k, hk1, hk2, hk3⟩ := h.mp hb
      simp only [List.length_cons, List.length_nil] at hk2
      interval_cases k <;> revert hk3 <;> decide

/-!
## C5 — configuration constraints after `processInput`
-/

/-- The configuration invariant of the claim (plus the `nChannels` and
`sampPeriod` ranges the code equally maintains and the others depend on). -/
def cfgValid (c : Cfg) : Prop :=
  1 ≤ c.nChannels ∧ c.nChannels ≤ 6 ∧
  2 ≤ c.nSamples ∧ c.nSamples ≤ 1200 / c.nChannels ∧
  c.nSamples * c.nChannels ≤ 1200 ∧
  0 ≤ c.trigThresh ∧ c.trigThresh ≤ 1023 ∧
  0 ≤ c.acqDelay ∧ c.acqDelay ≤ 2000 ∧
  0 ≤ c.preTrigSamp ∧ c.preTrigSamp ≤ c.nSamples - 1 ∧
  c.nChannels ≤ c.sampPeriod ∧ c.sampPeriod ≤ 900000

instance (c : Cfg) : Decidable (cfgValid c) := by unfold cfgValid; infer_instance

theorem constrain_mem {x a b : Int} (h : a ≤ b) :
    a ≤ constrain x a b ∧ constrain x a b ≤ b := by
  unfold constrain; split_ifs <;> omega

/-- The bounds maintained already inside the parse loop. -/
def cfgMid (c : Cfg) : Prop :=
  1 ≤ c.nChannels ∧ c.nChannels ≤ 6 ∧
  0 ≤ c.trigThresh ∧ c.trigThresh ≤ 1023 ∧
  0 ≤ c.acqDelay ∧ c.acqDelay ≤ 2000

theorem applyCmd_mid {a : ParseAcc} (cmd : Cmd) (h : cfgMid a.cfg) :
    cfgMid (applyCmd a cmd).cfg := by
  obtain ⟨h1, h2, h3, h4, h5, h6⟩ := h
  cases cmd <;>
    simp only [applyCmd, constrain] <;>
    (repeat split_ifs) <;>
    simp_all [cfgMid]

theorem applyCmds_mid (cmds : List Cmd) : ∀ a : ParseAcc, cfgMid a.cfg →
    cfgMid (cmds.foldl applyCmd a).cfg := by
  induction cmds with
  | nil => intro a h; exact h
  | cons c cs ih => intro a h; exact ih (applyCmd a c) (applyCmd_mid c h)

theorem div1200_bounds {n : Int} (h1 : 1 ≤ n) (h6 : n ≤ 6) :
    2 ≤ 1200 / n ∧ (1200 / n) * n ≤ 1200 ∧ 1200 / n ≤ 1200 := by
  interval_cases n <;> decide

@[simp] theorem clearBuf_cfg (st : DaqState) : (clearBuf st).cfg = st.cfg := rfl

@[simp] theorem resetBuf_cfg (st : DaqState) : (resetBuf st).cfg = st.cfg := rfl

@[simp] theorem resetAcq_cfg (st : DaqState) : (resetAcq st).cfg = st.cfg := rfl

/-- The configuration produced by the epilogue of `processInput`:
the reset calls do not touch `cfg`. -/
theorem applyConstraints_cfg (st : DaqState) (a : ParseAcc) :
    (applyConstraints st a).cfg =
      { a.cfg with
        nSamples := finalNSamples a,
        preTrigSamp := constrain a.preTrigSampL 0 (finalNSamples a - 1),
        sampPeriod := constrain a.sampPeriodL a.cfg.nChannels 900000 } := by
  unfold applyConstraints
  split_ifs <;> rfl

/-- **C5.** After every processed configuration line, the configuration
satisfies `nSamples × nChannels ≤ 1200`, `nSamples ∈ [2, 1200/nChannels]`,
`trigThresh ∈ [0, 1023]`, `acqDelay ∈ [0, 2000]` and
`preTrigSamp ∈ [0, nSamples − 1]` (as well as `nChannels ∈ [1, 6]` and
`sampPeriod ∈ [nChannels, 900000]`).  Every out-of-range requested value is
forced to the nearest bound by `constrain` at its assignment site —
`processInput` is total and has no rejection or error path. -/
theorem processInput_cfg_valid (st : DaqState) (cmds : List Cmd)
    (h : cfgValid st.cfg) : cfgValid (processInput st cmds).cfg := by
  obtain ⟨h1, h2, -, -, -, h3, h4, h5, h6, -, -, -, -⟩ := h
  have hmid : cfgMid (cmds.foldl applyCmd (initAcc st.cfg)).cfg :=
    applyCmds_mid cmds (initAcc st.cfg) ⟨h1, h2, h3, h4, h5, h6⟩
  set a := cmds.foldl applyCmd (initAcc st.cfg) with ha
  obtain ⟨m1, m2, m3, m4, m5, m6⟩ := hmid
  obtain ⟨d1, d2, d3⟩ := div1200_bounds m1 m2
  have hns := @constrain_mem a.nSamplesL 2 (1200 / a.cfg.nChannels) (by omega)
  unfold processInput
  rw [← ha, cfgValid, applyConstraints_cfg]
  simp only [finalNSamples]
  refine ⟨m1, m2, hns.1, hns.2, ?_, m3, m4, m5, m6, ?_, ?_, ?_, ?_⟩
  · calc constrain a.nSamplesL 2 (1200 / a.cfg.nChannels) * a.cfg.nChannels
        ≤ (1200 / a.cfg.nChannels) * a.cfg.nChannels := by
          exact mul_le_mul_of_nonneg_right hns.2 (by omega)
      _ ≤ 1200 := d2
  · exact (constrain_mem (by omega)).1
  · exact (constrain_mem (by omega)).2
  · exact (constrain_mem (by omega)).1
  · exact (constrain_mem (by omega)).2

/-!
## C6 / C10 — the packed circular buffer

A slot `i` keeps its high 8 bits in `sampBuf[i]` and its low 2 bits in the
2-bit field number `i % 4` of `sampBufL[i / 4]`; the field masks below are
indexed by the sub-slot `p = i % 4 < 4`, whose shift is `p * 2`.
-/

theorem comp_lt_256 : ∀ p < 4, 255 ^^^ (3 <<< (p * 2)) < 256 := by decide

theorem comp_and_mask : ∀ p < 4, (255 ^^^ (3 <<< (p * 2))) &&& (3 <<< (p * 2)) = 0 := by
  decide

set_option maxRecDepth 8192 in
/-- Extracting a freshly written 2-bit field returns it, whatever the other
six bits of the byte hold. -/
theorem low_extract_core : ∀ p < 4, ∀ y < 256, y &&& (3 <<< (p * 2)) = 0 →
    ∀ m < 4, ((y ||| (m <<< (p * 2))) >>> (p * 2)) &&& 3 = m := by decide

set_option maxRecDepth 8192 in
/-- Recombining the stored high byte with the stored low 2 bits restores any
10-bit value. -/
theorem high_low_recombine : ∀ v < 1024, (((v >>> 2) % 256) <<< 2) ||| (v &&& 3) = v := by
  decide

set_option maxRecDepth 8192 in
/-- Writing one 2-bit field of a byte leaves every other 2-bit field as it
was. -/
theorem low_frame_core : ∀ p < 4, ∀ q < 4, p ≠ q → ∀ r < 256, ∀ m < 4,
    (((r &&& (255 ^^^ (3 <<< (p * 2)))) ||| (m <<< (p * 2))) >>> (q * 2)) &&& 3 =
      (r >>> (q * 2)) &&& 3 := by decide

theorem and255_eq_mod (x : Nat) : x &&& 255 = x % 256 := by
  simpa using Nat.and_pow_two_sub_one_eq_mod x 8

/-- An AND against a byte-sized mask only sees the low byte of its operand. -/
theorem and_reduce_mod256 (x c : Nat) (hc : c < 256) : x &&& c = (x % 256) &&& c := by
  conv_lhs => rw [← Nat.mod_eq_of_lt hc, ← and255_eq_mod, Nat.and_comm c 255,
    ← Nat.and_assoc, and255_eq_mod]

/-- A 2-bit read at any of the four byte-internal shifts only sees the low
byte of its operand. -/
theorem shiftRight_and3_mod (x s : Nat) (hs : s = 0 ∨ s = 2 ∨ s = 4 ∨ s = 6) :
    (x >>> s) &&& 3 = ((x % 256) >>> s) &&& 3 := by
  have h3 : ∀ y : Nat, y &&& 3 = y % 4 := fun y => by
    simpa using Nat.and_pow_two_sub_one_eq_mod y 2
  rw [h3, h3, Nat.shiftRight_eq_div_pow, Nat.shiftRight_eq_div_pow]
  rcases hs with rfl | rfl | rfl | rfl <;> norm_num <;> omega

/-- **C6.** For every index `i` in `[0, bufSize)` and every 10-bit value
`v`, writing `v` to slot `i` with `toBuf` and reading slot `i` back with
`fromBuf` returns `v`. -/
theorem buf_roundtrip (st : DaqState) (i v : Nat)
    (hi : (i : Int) < st.bufSize) (hv : v ≤ 1023) :
    fromBuf (toBuf v i st) i = v := by
  have hm : v &&& 3 < 4 := Nat.lt_succ_of_le Nat.and_le_right
  simp only [toBuf, fromBuf, Function.update_same]
  have hy : st.sampBufL (i / 4) &&& (255 ^^^ (3 <<< (i % 4 * 2))) < 256 :=
    lt_of_le_of_lt Nat.and_le_right (comp_lt_256 (i % 4) (by omega))
  have hz : (st.sampBufL (i / 4) &&& (255 ^^^ (3 <<< (i % 4 * 2)))) &&&
      (3 <<< (i % 4 * 2)) = 0 := by
    rw [Nat.and_assoc, comp_and_mask (i % 4) (by omega), Nat.and_zero]
  rw [low_extract_core (i % 4) (by omega) _ hy hz _ hm]
  exact high_low_recombine v (by omega)

/-- Witness for C6 at slot 7 and the extreme 10-bit value 1023. -/
theorem buf_roundtrip_witness : fromBuf (toBuf 1023 7 initState) 7 = 1023 :=
  buf_roundtrip initState 7 1023 (by decide) (by decide)

/-- **C10.** For distinct indices `i ≠ j` in `[0, 1200)`, a `toBuf` write at
`i` leaves the value `fromBuf` reads at `j` unchanged, even when the low two
bits of both slots are packed into the same byte of `sampBufL`. -/
theorem buf_frame (st : DaqState) (i j v : Nat)
    (hi : i < 1200) (hj : j < 1200) (hne : i ≠ j) :
    fromBuf (toBuf v i st) j = fromBuf st j := by
  have hm : v &&& 3 < 4 := Nat.lt_succ_of_le Nat.and_le_right
  simp only [toBuf, fromBuf]
  rw [Function.update_noteq (Ne.symm hne)]
  by_cases hq : j / 4 = i / 4
  · rw [hq, Function.update_same]
    congr 1
    have hpq : i % 4 ≠ j % 4 := by omega
    rw [and_reduce_mod256 (st.sampBufL (i / 4)) _ (comp_lt_256 (i % 4) (by omega))]
    conv_rhs => rw [shiftRight_and3_mod (st.sampBufL (i / 4)) (j % 4 * 2) (by omega)]
    exact low_frame_core (i % 4) (by omega) (j % 4) (by omega) hpq
      (st.sampBufL (i / 4) % 256) (Nat.mod_lt _ (by norm_num)) (v &&& 3) hm
  · rw [Function.update_noteq hq]

/-- Witness for C10: slots 4 and 5 share a packed low-bits byte; writing slot
4 does not disturb the value read from slot 5. -/
theorem buf_frame_witness :
    fromBuf (toBuf 999 4 (toBuf 517 5 initState)) 5 = fromBuf (toBuf 517 5 initState) 5 :=
  buf_frame (toBuf 517 5 initState) 4 5 999 (by decide) (by decide) (by decide)

/-- Witness for C5: a line requesting `trigThresh = 5000`,
`nSamples = 99999` and `preTrigSamp = -7` still leaves a valid
configuration (everything clamped). -/
theorem processInput_cfg_valid_witness :
    cfgValid (processInput initState
      [Cmd.trigThreshCmd 5000, Cmd.nSamplesCmd 99999, Cmd.trigPreCmd (-7)]).cfg :=
  processInput_cfg_valid initState _ (by decide)

/-!
## C8 — which events actually reset what
-/

/-- **C8 (amended).** The resets the code actually performs:
* at startup everything is in the reset state (buffer zeroed, pivot 0,
  `bufSize = nChannels·nSamples`, trigger state cleared);
* a processed input line that changes `nChannels` or `nSamples`
  (`finalResetReq`) resets the buffer (all slots zero, pivot 0, `bufSize`
  re-derived from the new configuration) and the trigger state;
* a processed input line that does not change them — including a pure ADC
  resolution change — leaves the buffer contents, pivot and `bufSize`
  untouched and resets only the trigger state;
* finishing a readout resets only the trigger state (and re-arms settling
  suppression); buffer, pivot and `bufSize` stay as they were. -/
theorem reset_discipline (st : DaqState) (cmds : List Cmd) :
    (initState.curPivot = 0 ∧ initState.sampBuf = (fun _ => 0) ∧
      initState.sampBufL = (fun _ => 0) ∧
      initState.bufSize = initState.cfg.nChannels * initState.cfg.nSamples ∧
      initState.trigger = false ∧ initState.acqDelayCnt = 0 ∧
      initState.acqStarted = false ∧ initState.acqComplete = false) ∧
    (finalResetReq (cmds.foldl applyCmd (initAcc st.cfg)) = true →
      (processInput st cmds).sampBuf = (fun _ => 0) ∧
      (processInput st cmds).sampBufL = (fun _ => 0) ∧
      (processInput st cmds).curPivot = 0 ∧
      (processInput st cmds).bufSize =
        (processInput st cmds).cfg.nChannels * (processInput st cmds).cfg.nSamples) ∧
    (finalResetReq (cmds.foldl applyCmd (initAcc st.cfg)) = false →
      (processInput st cmds).sampBuf = st.sampBuf ∧
      (processInput st cmds).sampBufL = st.sampBufL ∧
      (processInput st cmds).curPivot = st.curPivot ∧
      (processInput st cmds).bufSize = st.bufSize) ∧
    ((processInput st cmds).trigger = false ∧
      (processInput st cmds).acqDelayCnt = 0 ∧
      (processInput st cmds).acqStarted = false ∧
      (processInput st cmds).acqComplete = false) ∧
    ((finishReadout st).trigger = false ∧ (finishReadout st).acqDelayCnt = 0 ∧
      (finishReadout st).acqStarted = false ∧ (finishReadout st).acqComplete = false ∧
      (finishReadout st).sampBuf = st.sampBuf ∧ (finishReadout st).curPivot = st.curPivot ∧
      (finishReadout st).bufSize = st.bufSize) := by
  refine ⟨⟨rfl, rfl, rfl, rfl, rfl, rfl, rfl, rfl⟩, ?_, ?_, ?_, ?_⟩
  · intro h
    simp only [processInput, applyConstraints, h, if_true]
    refine ⟨?_, ?_, ?_, ?_⟩ <;> split_ifs <;>
      simp [resetAcq, resetTrig, resetBuf, clearBuf, applyConstraints_cfg, h]
  · intro h
    simp only [processInput, applyConstraints, h, Bool.false_eq_true, if_false]
    refine ⟨?_, ?_, ?_, ?_⟩ <;> split_ifs <;>
      simp [resetAcq, resetTrig]
  · unfold processInput applyConstraints
    split_ifs <;> simp [resetAcq, resetTrig]
  · exact ⟨rfl, rfl, rfl, rfl, rfl, rfl, rfl⟩

/-- A state with visible buffer content and a nonzero pivot, used to show
what a resolution change and a finished readout do **not** reset. -/
def exC8State : DaqState :=
  { initState with curPivot := 7, sampBuf := Function.update (fun _ => 0) 3 99 }

/-- **C8 counterexample.**  The claim says a configuration change altering
the ADC resolution, and every completed readout, reset the circular buffer
(slots zeroed, pivot 0).  In fact `r H` (a pure resolution change) and the
post-readout epilogue leave pivot 7 and the stored sample 99 in slot 3
untouched — only the trigger state is reset. -/
theorem reset_discipline_counterexample :
    (processInput exC8State [Cmd.adcResCmd 'H']).cfg.adcRes = 'H' ∧
    (processInput exC8State [Cmd.adcResCmd 'H']).curPivot = 7 ∧
    (processInput exC8State [Cmd.adcResCmd 'H']).sampBuf 3 = 99 ∧
    (finishReadout exC8State).curPivot = 7 ∧
    (finishReadout exC8State).sampBuf 3 = 99 ∧
    (7 : Int) ≠ 0 :=
  ⟨by decide, by decide, by decide, by decide, by decide, by decide⟩

/-- Witness for the amended C8: a line changing `nSamples` does reset the
buffer and pivot, and a finished readout clears the trigger flag. -/
theorem reset_discipline_witness :
    (processInput exC8State [Cmd.nSamplesCmd 20]).curPivot = 0 ∧
    (processInput exC8State [Cmd.nSamplesCmd 20]).sampBuf = (fun _ => 0) ∧
    (finishReadout exC8State).trigger = false := by
  have h := reset_discipline exC8State [Cmd.nSamplesCmd 20]
  exact ⟨(h.2.1 (by decide)).2.2.1, (h.2.1 (by decide)).1, h.2.2.2.2.1⟩

/-!
## C9 — replay timestamps and 32-bit overflow
-/

/-- Iterated `t += cfg.sampPeriod` (with the 32-bit wrap of a C `long`), as
the replay loop performs at each channel-group boundary. -/
def tIter (per : Int) (t : Int) : Nat → Int
  | 0 => t
  | j + 1 => wrap32 (tIter per t j + per)

theorem wrap32_wrap32_add (a s : Int) : wrap32 (wrap32 a + s) = wrap32 (a + s) := by
  unfold wrap32; omega

theorem tIter_shift (per t : Int) : ∀ j : Nat, tIter per t (j + 1) = tIter per (wrap32 (t + per)) j
  | 0 => rfl
  | j + 1 => by
    rw [show j + 1 + 1 = (j + 1) + 1 from rfl, tIter, tIter_shift per t j]
    rfl

theorem tIter_closed (per a : Int) : ∀ j : Nat, tIter per (wrap32 a) j = wrap32 (a + j * per)
  | 0 => by simp [tIter]
  | j + 1 => by
    rw [tIter, tIter_closed per a j, wrap32_wrap32_add]
    congr 1
    push_cast
    ring

/-- The exact configuration of the failing input: one channel, the maximal
`sampPeriod = 900000`, maximal `acqDelay = 2000`, maximal `nSamples = 1200`,
no pre-trigger samples — every field inside its documented valid range. -/
def cfg9 : Cfg :=
  { nChannels := 1, sampPeriod := 900000, adcRes := 'L', trigChannel := 0,
    trigMode := '/', trigThresh := 500, preTrigSamp := 0, acqDelay := 2000,
    nSamples := 1200, valSep := '\t', graphMode := false }

/-- A completed capture in configuration `cfg9`, about to be replayed
(window start at slot 0). -/
def st9 : DaqState := { initState with cfg := cfg9, bufSize := 1200, startPivot := 0 }

/-- The replay loop over `st9` prints, per group `k`, the `k`-fold
wrap-advanced timestamp. -/
theorem replayIter_st9 : ∀ n : Nat, ∀ r : ReplaySt, 1 ≤ n → n ≤ 1200 →
    r.c = 0 → r.i = (1200 - (n : Int)) →
    (replayIter st9 n r).ts = r.ts ++ (List.range n).map (tIter 900000 r.t) := by
  intro n
  induction n with
  | zero => intro r h1 _ _ _; omega
  | succ n ih =>
    intro r h1 h2 hc hi
    have hch : st9.cfg.nChannels = 1 := rfl
    have hgm : st9.cfg.graphMode = false := rfl
    have hsp : st9.startPivot = 0 := rfl
    have hbs : st9.bufSize = 1200 := rfl
    simp only [replayIter, hch, hgm, hsp, hbs, hc]
    norm_num
    by_cases hn : n = 0
    · subst hn
      rw [if_pos (show (1200 : Int) ∣ r.i + 1 by omega)]
      simp [List.range_succ, tIter]
    · rw [if_neg (show ¬ (1200 : Int) ∣ r.i + 1 by omega)]
      have hrec := ih
        { t := wrap32 (r.t + st9.cfg.sampPeriod), c := 0, i := (r.i + 1) % 1200,
          ts := r.ts ++ [r.t] }
        (by omega) (by omega) rfl
        (by show ((r.i + 1) % 1200 : Int) = 1200 - (n : Int); omega)
      rw [hrec]
      simp only [List.append_assoc, List.singleton_append]
      congr 1
      rw [List.range_succ_eq_map, List.map_cons, List.map_map]
      congr 1
      apply List.map_congr_left
      intro j _
      show tIter 900000 (wrap32 (r.t + st9.cfg.sampPeriod)) j = tIter 900000 r.t (j + 1)
      rw [tIter_shift]
      rfl

/-- **C9 (the code at the failing input).**  In the valid configuration
`cfg9` (`sampPeriod = 900000`, `acqDelay = 2000`, `nSamples = 1200`,
`preTrigSamp = 0`, one channel) the timestamp the replay loop prints with
channel group `k = 1199` is the 32-bit-wrapped `-1415867296`, whereas the
specified value `(k − preTrigSamp + acqDelay) × sampPeriod` is
`2879100000`: the `long` timestamp arithmetic overflows although every
configuration field is inside its documented range. -/
theorem replay_timestamp_overflow :
    (replayTimestamps st9)[1199]? = some (-1415867296) ∧
    ((1199 : Int) - st9.cfg.preTrigSamp + st9.cfg.acqDelay) * st9.cfg.sampPeriod =
      2879100000 ∧
    (-1415867296 : Int) ≠ 2879100000 := by
  refine ⟨?_, by decide, by decide⟩
  have hts : replayTimestamps st9 =
      (List.range 1200).map (tIter 900000 (wrap32 1800000000)) := by
    unfold replayTimestamps
    have hi4 : (0 : Int) = 1200 - ((1200 : Nat) : Int) := by norm_num
    have h := replayIter_st9 1200
      { t := wrap32 ((-st9.cfg.preTrigSamp + st9.cfg.acqDelay) * st9.cfg.sampPeriod),
        c := 0, i := st9.startPivot, ts := [] }
      (by norm_num) (by norm_num) rfl hi4
    rw [show st9.bufSize.toNat = 1200 from rfl, h]
    norm_num
    exact fun a _ => rfl
  rw [hts]
  have hr : (List.range 1200)[1199]? = some 1199 := by
    rw [List.getElem?_range (by norm_num)]
  rw [List.getElem?_map, hr]
  have hclosed := tIter_closed 900000 1800000000 1199
  rw [show Option.map (tIter 900000 (wrap32 1800000000)) (some 1199) =
    some (tIter 900000 (wrap32 1800000000) 1199) from rfl, hclosed]
  norm_num
  unfold wrap32
  decide
